import Mathlib

/-!
Verification of the geometry-extraction and region-partitioning engine of
`flatmap-mvt-maker` against its natural-language specification.

The development shallowly embeds the relevant parts of the Python sources:

* `src/mapmaker/drawml/geojson_extractor.py` — path flattening
  (`GeoJsonLayer.process_shape`), divider-line extension (`extend_`,
  `extend_line`), and the region-partitioning loop of
  `GeoJsonLayer.add_geo_features_` together with the emitted-property merge;
* `src/mapmaker/output/geojson.py` — `GeoJSONOutput.__save_features`:
  per-feature bounds/area/length/scale computation and the Mercator
  reprojection at output time;
* `src/mapmaker/maker.py` — `Flatmap.__add_detail_features`: the detail
  ("high-resolution") rescaling step and its error behaviour.

Coordinates handled by the flattener are embedded as rational pairs (the
source works with Python floats; every claim's scenario uses exact values),
while the metric-space computations that involve square roots, logarithms
and π (`extend_`, tolerances, `scale`) are embedded over the reals.

External collaborators (shapely, pyproj, cv2, the beziers library and the
repository modules not shipped under `src/` such as `arc_to_bezier.py`)
are modelled as explicit parameters or from the specification's wording;
each such place carries a comment saying what it stands for.
-/

/-! ## Property dictionaries

Python `dict`s of shape/feature properties are embedded as association
lists with first-match lookup.  `pupdate a b` models `a.copy()` followed by
`.update(b)` (entries of `b` win on lookup), matching `dict.update`. -/

abbrev Props (V : Type) := List (String × V)

/-- Lookup, modelling Python `d.get(k)` / `d[k]`: the first entry whose key
equals `k` wins (entries added by a later `update` are placed in front). -/
def pget {V : Type} (props : Props V) (k : String) : Option V :=
  (props.find? (fun kv => kv.1 == k)).map (·.2)

/-- `pupdate a b` is the dictionary `a` updated with `b` (later wins):
on lookup, entries of `b` shadow entries of `a`. -/
def pupdate {V : Type} (a b : Props V) : Props V := b ++ a

/-- Property values occurring in the markup dictionaries: strings, integers
and booleans (the annotation grammar produces exactly these shapes). -/
inductive PVal
  | s (v : String)
  | n (v : ℤ)
  | b (v : Bool)
deriving DecidableEq

/-- Python truthiness of a property value, as used by
`feature.properties.get('boundary', False)` appearing in a condition. -/
def PVal.truthy : PVal → Bool
  | .s v => v != ""
  | .n v => v != 0
  | .b v => v

/-- `feature.properties.get(k, False)` used as a condition. -/
def pgetb (props : Props PVal) (k : String) : Bool :=
  (pget props k).elim false PVal.truthy

/-- `feature.properties.get('annotation', '') == ''`, the "unannotated"
test of `add_geo_features_` (lines 168 and 174). -/
def annotEmpty (props : Props PVal) : Bool :=
  (pget props "annotation").elim true (fun v => v == PVal.s "")

/-! ## Path flattening (`GeoJsonLayer.process_shape`)

`process_shape` iterates over a path's command elements maintaining
`coordinates`, `moved`, `first_point`, `current_point` and `closed`,
then returns `Polygon(coordinates)` if `closed` else
`LineString(coordinates)` (geojson_extractor.py lines 237–315). -/

/-- 2-D points in the flattener's exact coordinate space. -/
abbrev Pt := ℚ × ℚ

/-- The six DrawingML path commands handled by `process_shape`
(`arcTo`, `close`, `cubicBezTo`, `lnTo`, `moveTo`, `quadBezTo`);
`cubicBezTo` carries its three control/end points and `quadBezTo` its two,
as fixed by the DrawingML schema. -/
inductive PathCmd
  | moveTo (pt : Pt)
  | lnTo (pt : Pt)
  | cubicBezTo (p1 p2 p3 : Pt)
  | quadBezTo (p1 p2 : Pt)
  | arcTo (wR hR stAng swAng : ℚ)
  | close
deriving DecidableEq

/-- An affine 2-D transform: the top two rows of the 3×3 homogeneous matrix
used by the source (the third row is the fixed `[0, 0, 1]`, as the layer and
group matrices of `GeoJsonExtractor` are built that way). -/
structure TMat where
  a : ℚ
  b : ℚ
  c : ℚ
  d : ℚ
  e : ℚ
  f : ℚ
deriving DecidableEq

/-- `transform_point(transform, point) = (transform @ [x, y, 1.0])[:2]`
(geojson_extractor.py lines 65–67), written out for a matrix whose third
row is `[0, 0, 1]`. -/
def transform_point (T : TMat) (p : Pt) : Pt :=
  (T.a * p.1 + T.b * p.2 + T.c, T.d * p.1 + T.e * p.2 + T.f)

/-- The identity transform. -/
def idT : TMat := ⟨1, 0, 0, 0, 1, 0⟩

/-- Point of a cubic Bezier at parameter `t` (Bernstein form); this is the
curve the external beziers library evaluates for `CubicBezier`. -/
def cubic_point (p0 p1 p2 p3 : Pt) (t : ℚ) : Pt :=
  ((1-t)^3 * p0.1 + 3*(1-t)^2*t * p1.1 + 3*(1-t)*t^2 * p2.1 + t^3 * p3.1,
   (1-t)^3 * p0.2 + 3*(1-t)^2*t * p1.2 + 3*(1-t)*t^2 * p2.2 + t^3 * p3.2)

/-- Point of a quadratic Bezier at parameter `t`. -/
def quad_point (p0 p1 p2 : Pt) (t : ℚ) : Pt :=
  ((1-t)^2 * p0.1 + 2*(1-t)*t * p1.1 + t^2 * p2.1,
   (1-t)^2 * p0.2 + 2*(1-t)*t * p1.2 + t^2 * p2.2)

/-- Models the external beziers library's `bz.sample(100)` used by
`transform_bezier_samples` (lines 69–72): 100 points of the curve at evenly
spaced parameters, including both endpoints (`t = 0` and `t = 1`), matching
the spec's "sample it at a fixed resolution of 100 parametric steps". -/
def bezier_samples (curve : ℚ → Pt) : List Pt :=
  (List.range 100).map (fun (i : ℕ) => curve ((i : ℚ) / 99))

/-- The loop state of `process_shape` (lines 248–251). -/
structure FlattenState where
  coordinates : List Pt
  moved : Bool
  first_point : Option Pt
  current_point : Option Pt
  closed : Bool
deriving DecidableEq

/-- Initial loop state: `moved = False`, `first_point = None`,
`current_point = None`, `closed = False`, no coordinates. -/
def initState : FlattenState := ⟨[], false, none, none, false⟩

/-- Stands for lines 255–268 of `process_shape`: the `arcTo` branch's use of
`ellipse_point` (from the `extractor`/`formula` modules, not shipped under
`src/`) and `cubic_beziers_from_arc` (from `arc_to_bezier.py`, not shipped
under `src/`) followed by 100-point sampling of each returned Bezier.
Modelled from the spec: "compute the arc's end point via the standard
ellipse-parametrization offset from `currentPoint`; … approximate the
elliptical arc with a sequence of cubic Bezier segments …, then sample each
Bezier segment exactly as above".  Given the `arcTo` attributes and the
current point it returns the untransformed sample points and the arc's end
point; `process_shape` transforms the samples pointwise. -/
abbrev ArcEmit := ℚ → ℚ → ℚ → ℚ → Pt → List Pt × Pt

/-- One iteration of the command loop of `process_shape`
(geojson_extractor.py lines 253–311).  Branches where the Python code would
raise a `TypeError` (a drawing command before any `moveTo` set
`current_point`) leave the state unchanged; no claim exercises them. -/
def flattenStep (arcEmit : ArcEmit) (T : TMat) (st : FlattenState) (c : PathCmd) :
    FlattenState :=
  match c with
  | .arcTo wR hR stAng swAng =>
    match st.current_point with
    | none => st
    | some cur =>
      let r := arcEmit wR hR stAng swAng cur
      { st with coordinates := st.coordinates ++ r.1.map (transform_point T),
                current_point := some r.2 }
  | .close =>
    -- `if first_point is not None and current_point != first_point:
    --      coordinates.append(transform_point(T, first_point))`
    -- then `closed = True; first_point = None` (lines 270–274).
    let coords :=
      match st.first_point, st.current_point with
      | some fp, some cur =>
        if cur ≠ fp then st.coordinates ++ [transform_point T fp] else st.coordinates
      | some fp, none => st.coordinates ++ [transform_point T fp]
      | none, _ => st.coordinates
    { st with coordinates := coords, closed := true, first_point := none }
  | .cubicBezTo p1 p2 p3 =>
    match st.current_point with
    | none => st
    | some cur =>
      { st with
          coordinates :=
            st.coordinates ++ (bezier_samples (cubic_point cur p1 p2 p3)).map (transform_point T),
          current_point := some p3 }
  | .lnTo pt =>
    -- `if moved: coordinates.append(transform_point(T, current_point)); moved = False`
    -- then `coordinates.append(transform_point(T, pt))` (lines 286–292).
    let coords :=
      if st.moved then
        match st.current_point with
        | some cur => st.coordinates ++ [transform_point T cur]
        | none => st.coordinates
      else st.coordinates
    { st with coordinates := coords ++ [transform_point T pt],
              current_point := some pt, moved := false }
  | .moveTo pt =>
    -- `if first_point is None: first_point = pt` then
    -- `current_point = pt; moved = True` (lines 294–299).
    { st with
        first_point := if st.first_point = none then some pt else st.first_point,
        current_point := some pt, moved := true }
  | .quadBezTo p1 p2 =>
    match st.current_point with
    | none => st
    | some cur =>
      { st with
          coordinates :=
            st.coordinates ++ (bezier_samples (quad_point cur p1 p2)).map (transform_point T),
          current_point := some p2 }

/-- The geometry returned by `process_shape`: `shapely.geometry.Polygon` of
the collected coordinates when `closed`, else a `LineString`.  The
constructor stores the coordinate list exactly as the source passes it to
shapely (lines 314–315). -/
inductive Geom
  | polygon (ring : List Pt)
  | lineString (coords : List Pt)
deriving DecidableEq

/-- `GeoJsonLayer.process_shape` restricted to a single path's command
list: fold the command loop from the initial state, then return
`Polygon(coordinates) if closed else LineString(coordinates)`
(geojson_extractor.py lines 237–315). -/
def process_shape (arcEmit : ArcEmit) (T : TMat) (cmds : List PathCmd) : Geom :=
  let st := cmds.foldl (flattenStep arcEmit T) initState
  if st.closed then .polygon st.coordinates else .lineString st.coordinates

/-- Consecutive-pair view of a closed ring: shapely's `Polygon` closes the
ring implicitly, so each coordinate is paired with its cyclic successor. -/
def rot1 {α : Type} : List α → List α
  | [] => []
  | x :: xs => xs ++ [x]

/-- Shapely's `polygon.area` for a simple ring: absolute shoelace sum over
the cyclically adjacent coordinate pairs, halved. -/
def polygon_area (ring : List Pt) : ℚ :=
  |((ring.zip (rot1 ring)).foldl
      (fun acc pq => acc + (pq.1.1 * pq.2.2 - pq.2.1 * pq.1.2)) 0)| / 2

/-- Euclidean distance between two rational points, as a real. -/
noncomputable def qdist (p q : Pt) : ℝ :=
  Real.sqrt (((q.1 - p.1 : ℚ) : ℝ)^2 + ((q.2 - p.2 : ℚ) : ℝ)^2)

/-- Shapely's `polygon.length` for a simple ring: the perimeter, summing
the distances of cyclically adjacent coordinate pairs. -/
noncomputable def polygon_length (ring : List Pt) : ℝ :=
  (ring.zip (rot1 ring)).foldl (fun acc pq => acc + qdist pq.1 pq.2) 0

/-! ## Region partitioning (`GeoJsonLayer.add_geo_features_`, lines 187–198)

Polygonizing the unioned divider set (`shapely.ops.polygonize`,
`shapely.ops.unary_union`) and point-in-polygon testing
(`shapely.prepared.prep(polygon).contains`) are external shapely
operations; the resulting polygons are an input list and containment is a
boolean-valued parameter.  Region markers were collected earlier in the
loop as `Feature(feature.id, feature.geometry.representative_point(),
feature.properties)` (line 166). -/

/-- A declared region marker: its stored numeric id, its geometry's
representative point, and its properties. -/
structure RegionMarker (P V : Type) where
  id : ℕ
  point : P
  props : Props V

/-- Lines 190–194 for one polygon: `region_id = None`;
`region_properties = child_properties.copy()`; then for every region whose
point the polygon contains, `region_id = region.id` and
`region_properties.update(region.properties)`. -/
def region_loop {A P V : Type} (contains : A → P → Bool) (child_properties : Props V)
    (regions : List (RegionMarker P V)) (polygon : A) : Option ℕ × Props V :=
  regions.foldl
    (fun acc r =>
      if contains polygon r.point then (some r.id, pupdate acc.2 r.props) else acc)
    (none, child_properties)

/-- Lines 188–198: for every polygon of the polygonized divider set, run
`region_loop`; if no region matched, take the next value of the layer's
`_region_id` counter and advance it; append
`Feature(region_id, polygon, region_properties)`.  Returns the appended
features and the final counter value. -/
def assign_regions {A P V : Type} (contains : A → P → Bool) (child_properties : Props V)
    (regions : List (RegionMarker P V)) (polygons : List A) (region_id : ℕ) :
    List (ℕ × A × Props V) × ℕ :=
  polygons.foldl
    (fun acc polygon =>
      let rp := region_loop contains child_properties regions polygon
      match rp.1 with
      | some i => (acc.1 ++ [(i, polygon, rp.2)], acc.2)
      | none => (acc.1 ++ [(acc.2, polygon, rp.2)], acc.2 + 1))
    ([], region_id)

/-- `self._region_id = 10000`, the seed of the layer's region-id counter
(`GeoJsonLayer.__init__`, line 106). -/
def initialRegionId : ℕ := 10000

/-- The region-assignment step as worded by the (amended) specification:
for each polygon, the matching markers are those whose representative point
the polygon contains; the feature takes the id of the *last* matching
marker, and the base child-properties merged successively with the
properties of *every* matching marker in iteration order (later wins per
key); with no matching marker it takes the next sequential id from the
region-id counter, with only the base child-properties. -/
def assign_regions_spec {A P V : Type} (contains : A → P → Bool)
    (child_properties : Props V) (regions : List (RegionMarker P V)) :
    List A → ℕ → List (ℕ × A × Props V) × ℕ
  | [], region_id => ([], region_id)
  | polygon :: rest, region_id =>
    let ms := regions.filter (fun r => contains polygon r.point)
    let feature :=
      match ms.getLast? with
      | some r =>
        ((r.id, polygon, ms.foldl (fun a (m : RegionMarker P V) => pupdate a m.props) child_properties),
         region_id)
      | none => ((region_id, polygon, child_properties), region_id + 1)
    let tail := assign_regions_spec contains child_properties regions rest feature.2
    (feature.1 :: tail.1, tail.2)

/-! ## Divider-line extension (`extend_`, `extend_line`, tolerance)

These work in the layer's metric coordinate space; lengths involve square
roots, so they are embedded over the reals. -/

/-- 2-D points of the metric space. -/
abbrev PtR := ℝ × ℝ

/-- The Euclidean length `l = math.sqrt(dx*dx + dy*dy)` of the segment from
`p0` to `p1`, the divisor of `extend_` (geojson_extractor.py line 82). -/
noncomputable def seg_len (p0 p1 : PtR) : ℝ :=
  Real.sqrt ((p1.1 - p0.1) * (p1.1 - p0.1) + (p1.2 - p0.2) * (p1.2 - p0.2))

/-- `extend_(p0, p1, delta)` (lines 74–84): extend the line through `p0`
and `p1` by `delta` beyond `p1` and return the new end point.  The scale
`(delta + l)/l` divides by `seg_len p0 p1` with no guard; in Python a
zero length raises `ZeroDivisionError`, here real division totalizes. -/
noncomputable def extend_ (p0 p1 : PtR) (delta : ℝ) : PtR :=
  let dx := p1.1 - p0.1
  let dy := p1.2 - p0.2
  let scale := (delta + seg_len p0 p1) / seg_len p0 p1
  (p0.1 + scale * dx, p0.2 + scale * dy)

/-- Geometry in the metric space, as handled by `extend_line` and
`GeoJSONOutput.__save_features`. -/
inductive GeomR
  | polygon (ring : List PtR)
  | lineString (coords : List PtR)

/-- `extend_line(geometry, delta)` (lines 86–97): non-`LineString`
geometries are returned unchanged; a two-point line is rebuilt from both
extended endpoints; longer lines have their first and last coordinates
replaced by the extended ones. -/
noncomputable def extend_line (geometry : GeomR) (delta : ℝ) : GeomR :=
  match geometry with
  | .polygon ring => .polygon ring
  | .lineString coords =>
    match coords with
    | [c0, c1] => .lineString [extend_ c1 c0 delta, extend_ c0 c1 delta]
    | _ =>
      match coords, coords.reverse with
      | c0 :: c1 :: _, cl :: cl1 :: _ =>
        .lineString ([extend_ c1 c0 delta] ++ (coords.drop 1).dropLast ++ [extend_ cl1 cl delta])
      | _, _ => .lineString coords

/-- `tolerance = 0.02*math.sqrt(divided_area)`
(`add_geo_features_`, line 163). -/
noncomputable def tolerance (divided_area : ℝ) : ℝ :=
  0.02 * Real.sqrt divided_area

/-- Lines 167–171 of `add_geo_features_` for a `LineString` feature: if it
is unannotated or boundary-flagged, the line extended by the group's
tolerance is what gets appended to the divider set (`dividers.append`);
otherwise the feature contributes no divider. -/
noncomputable def divider_line (props : Props PVal) (geometry : GeomR) (divided_area : ℝ) :
    Option GeomR :=
  match geometry with
  | .lineString coords =>
    if annotEmpty props || pgetb props "boundary" then
      some (extend_line (.lineString coords) (tolerance divided_area))
    else none
  | _ => none

/-! ## GeoJSON output (`GeoJSONOutput.__save_features`, output/geojson.py)

`geometry.area`, `geometry.length`, `geometry.bounds` and
`mercator_transform` (a `shapely.ops.transform` with the pyproj
EPSG:3857→EPSG:4326 transformer) are shapely/pyproj operations; the
area/length/bounds formulas below are shapely's for simple geometries and
the projection is an arbitrary pointwise coordinate map `φ`. -/

/-- Coordinate list of a geometry. -/
def GeomR.coords : GeomR → List PtR
  | .polygon ring => ring
  | .lineString cs => cs

/-- Shapely's `geometry.area`: absolute shoelace sum over cyclically
adjacent ring coordinates, halved; a `LineString` has zero area. -/
noncomputable def geom_area (g : GeomR) : ℝ :=
  match g with
  | .polygon ring =>
    |((ring.zip (rot1 ring)).foldl
        (fun acc pq => acc + (pq.1.1 * pq.2.2 - pq.2.1 * pq.1.2)) 0)| / 2
  | .lineString _ => 0

/-- Shapely's `geometry.length`: the perimeter of a polygon (cyclically
adjacent pairs), the summed segment lengths of a line (consecutive
pairs). -/
noncomputable def geom_length (g : GeomR) : ℝ :=
  match g with
  | .polygon ring =>
    (ring.zip (rot1 ring)).foldl (fun acc pq => acc + seg_len pq.1 pq.2) 0
  | .lineString cs =>
    (cs.zip cs.tail).foldl (fun acc pq => acc + seg_len pq.1 pq.2) 0

/-- Shapely's `geometry.bounds`: `(minx, miny, maxx, maxy)` over the
coordinates (degenerate `(0,0,0,0)` for an empty geometry, which shapely
would render as an empty tuple). -/
noncomputable def geom_bounds (g : GeomR) : ℝ × ℝ × ℝ × ℝ :=
  match g.coords with
  | [] => (0, 0, 0, 0)
  | c :: cs =>
    (cs.foldl (fun m p => min m p.1) c.1, cs.foldl (fun m p => min m p.2) c.2,
     cs.foldl (fun m p => max m p.1) c.1, cs.foldl (fun m p => max m p.2) c.2)

/-- `mercator_transform(geometry)` = `shapely.ops.transform(transformer,
geometry)`: apply the projection `φ` to every coordinate, returning a new
geometry of the same type (the input geometry is not modified). -/
def mercator_transform (φ : PtR → PtR) : GeomR → GeomR
  | .polygon ring => .polygon (ring.map φ)
  | .lineString cs => .lineString (cs.map φ)

/-- The derived parts of the GeoJSON record built by `__save_features`
(output/geojson.py lines 78–110) for one feature. -/
structure GeoRecord where
  geometry : GeomR
  bounds : ℝ × ℝ × ℝ × ℝ
  area : ℝ
  length : ℝ
  scale : ℝ

/-- `__save_features` for one feature, given the projection `φ` and the
map's area: `area = geometry.area`; `mercator_geometry =
mercator_transform(geometry)`; the record takes the projected geometry,
`mercator_geometry.bounds`, the metric `area` and `geometry.length`; and
`scale = math.log(math.sqrt(map_area/area), 2)` when `area > 0`, else
`10` (lines 81–110; the tippecanoe/zoom bookkeeping and the property
pass-through are not part of the claims settled against this record). -/
noncomputable def save_feature (φ : PtR → PtR) (map_area : ℝ) (geometry : GeomR) :
    GeoRecord :=
  let area := geom_area geometry
  let mercator_geometry := mercator_transform φ geometry
  { geometry := mercator_geometry
    bounds := geom_bounds mercator_geometry
    area := area
    length := geom_length geometry
    scale :=
      if area > 0 then Real.logb 2 (Real.sqrt (map_area / area)) else 10 }

/-! ## Detail rescaling (`Flatmap.__add_detail_features`, maker.py 278–325)

`Feature`/`FeatureLayer` come from the `flatmap` package (not shipped under
`src/`); modelled from the spec: a feature has a numeric id, a geometry and
a property dictionary, and a layer owns a feature list, a designated
outline-feature id, and an id-indexed feature lookup.  The
`cv2.getPerspectiveTransform`/`shapely.affinity.affine_transform` remap is
the external parameter `remap`, taking the outline geometry, the
placeholder geometry and a feature's geometry to the remapped geometry. -/

/-- A map feature as used by the detail step: numeric id, geometry (type
parameter `G`), properties. -/
structure DFeature (G : Type) where
  feature_id : ℕ
  geometry : G
  props : Props PVal
deriving DecidableEq

/-- A high-resolution layer: its features, its designated outline feature
id and the id-indexed lookup `features_with_id`. -/
structure HLayer (G : Type) where
  features : List (DFeature G)
  outline_feature_id : String
  features_with_id : Props (DFeature G)
deriving DecidableEq

/-- The two fatal "not found" errors of `__add_detail_features`
(maker.py lines 285 and 289); each carries the identifying id that the
source interpolates into the `KeyError` message. -/
inductive DetailError
  | layerNotFound (details_id : String)
  | outlineNotFound (outline_id : String)
deriving DecidableEq

/-- The `KeyError` message raised for each failure, as formatted by
maker.py lines 285 and 289. -/
def DetailError.message : DetailError → String
  | .layerNotFound d => "Cannot find details' layer '" ++ d ++ "'"
  | .outlineNotFound o => "Cannot find outline feature '" ++ o ++ "'"

/-- `feature.get_property('details')` of a placeholder feature (every
feature handed to `__add_detail_features` carries one). -/
def detailsOf {G : Type} (feature : DFeature G) : String :=
  match pget feature.props "details" with
  | some (.s d) => d
  | _ => ""

/-- `minzoom = feature.get_property('maxzoom') + 1` (maker.py line 303);
a missing or non-integer `maxzoom` would raise in Python. -/
def minzoomOf {G : Type} (feature : DFeature G) : ℤ :=
  match pget feature.props "maxzoom" with
  | some (.n z) => z + 1
  | _ => 0

/-- The loop body of `__add_detail_features` for one placeholder feature
(maker.py lines 281–320): look up the high-resolution layer under
`'{source_id}-{details}'`, raising `KeyError` if absent; look up its
outline feature, raising `KeyError` if absent; otherwise clone every
feature of the high-resolution layer with remapped geometry, `layer` set to
the owning layer's id and `minzoom` set to `maxzoom + 1`.  Returns the
clones added to the detail layer for this placeholder. -/
def add_detail_feature {G : Type} (source_id layer_id : String)
    (layers : Props (HLayer G)) (remap : G → G → G → G) (feature : DFeature G) :
    Except DetailError (List (DFeature G)) :=
  let hires_layer_id := source_id ++ "-" ++ detailsOf feature
  match pget layers hires_layer_id with
  | none => .error (.layerNotFound (detailsOf feature))
  | some hires_layer =>
    match pget hires_layer.features_with_id hires_layer.outline_feature_id with
    | none => .error (.outlineNotFound hires_layer.outline_feature_id)
    | some outline_feature =>
      .ok (hires_layer.features.map (fun hires_feature =>
        { feature_id := hires_feature.feature_id
          geometry := remap outline_feature.geometry feature.geometry hires_feature.geometry
          props := pupdate hires_feature.props
            [("layer", .s layer_id), ("minzoom", .n (minzoomOf feature))] }))

/-- `__add_detail_features` over its list of placeholder features: process
each placeholder in order with `add_detail_feature`, propagating the first
`KeyError`; on success the detail layer receives the concatenated clones.
(The source then recurses on clones that themselves carry a `details`
property; the claims concern a single invocation.) -/
def add_detail_features {G : Type} (source_id layer_id : String)
    (layers : Props (HLayer G)) (remap : G → G → G → G) :
    List (DFeature G) → Except DetailError (List (DFeature G))
  | [] => .ok []
  | feature :: rest => do
    let cloned ← add_detail_feature source_id layer_id layers remap feature
    let more ← add_detail_features source_id layer_id layers remap rest
    pure (cloned ++ more)

/-! ## The arc classification of `process_shape` (line 263) -/

/-- `large_arc_flag = 1 if swAng >= math.pi else 0` (geojson_extractor.py
line 263): the value passed as the large-arc flag to
`cubic_beziers_from_arc`.  The comparison is *signed*: no absolute value is
taken. -/
noncomputable def large_arc_flag (swAng : ℝ) : ℕ :=
  if swAng ≥ Real.pi then 1 else 0

/-! ## Scenario A of the specification -/

/-- The command sequence of the spec's Scenario A. -/
def scenarioA : List PathCmd :=
  [.moveTo (0,0), .lnTo (10,0), .lnTo (10,10), .lnTo (0,10), .close]

/-- The coordinate ring Scenario A is required to produce. -/
def squareRing : List Pt := [(0,0), (10,0), (10,10), (0,10), (0,0)]

lemma sqrt_hundred : Real.sqrt 100 = 10 := by
  rw [show (100:ℝ) = 10^2 by norm_num, Real.sqrt_sq (by norm_num : (0:ℝ) ≤ 10)]

/-- C8: flattening `MoveTo(0,0), LineTo(10,0), LineTo(10,10), LineTo(0,10),
Close` under the identity transform yields a Polygon with coordinate ring
`[(0,0),(10,0),(10,10),(0,10),(0,0)]`, whose area is 100 and whose
perimeter length is 40 (for any behaviour of the external arc conversion,
which the sequence never invokes). -/
theorem C8_scenarioA (arcEmit : ArcEmit) :
    process_shape arcEmit idT scenarioA = .polygon squareRing ∧
    polygon_area squareRing = 100 ∧
    polygon_length squareRing = 40 := by
  refine ⟨?_, ?_, ?_⟩
  · simp [process_shape, scenarioA, flattenStep, initState, transform_point, idT, squareRing]
  · norm_num [polygon_area, rot1, squareRing]
  · norm_num [polygon_length, rot1, squareRing, qdist, sqrt_hundred, Real.sqrt_zero]

/-- C2, counterexample to the claim as stated: the arc sweep
`swAng = -3π/2` has `|swAng| ≥ π`, so the claim classifies it as a large
arc, but the code's signed comparison `swAng >= math.pi` yields flag 0. -/
theorem C2_counterexample :
    large_arc_flag (-(3 * Real.pi / 2)) = 0 ∧ Real.pi ≤ |(-(3 * Real.pi / 2))| := by
  have hpi := Real.pi_pos
  constructor
  · unfold large_arc_flag
    rw [if_neg]
    intro hc
    linarith
  · rw [abs_neg, abs_of_nonneg (by linarith)]
    linarith

/-- C2, amended: the flattener passes large-arc flag 1 to the arc-to-Bezier
conversion if and only if the *signed* sweep angle satisfies `swAng ≥ π`
(no absolute value is taken); otherwise it passes 0.  In particular a
negative sweep is never classified as a large arc. -/
theorem C2_large_arc_signed (swAng : ℝ) :
    (large_arc_flag swAng = 1 ↔ Real.pi ≤ swAng) ∧
    (large_arc_flag swAng = 0 ↔ ¬ Real.pi ≤ swAng) := by
  unfold large_arc_flag
  by_cases h : swAng ≥ Real.pi <;> simp [h]

/-- C6: for every saved feature, `area` and `length` are computed from the
feature's geometry in the internal metric space, `bounds` from the same
geometry after the Mercator projection, and the emitted geometry is the
projection applied exactly once to the stored metric geometry (which the
pointwise `mercator_transform` never alters — it builds a new geometry). -/
theorem C6_metric_before_projection (φ : PtR → PtR) (map_area : ℝ) (g : GeomR) :
    (save_feature φ map_area g).area = geom_area g ∧
    (save_feature φ map_area g).length = geom_length g ∧
    (save_feature φ map_area g).bounds = geom_bounds (mercator_transform φ g) ∧
    (save_feature φ map_area g).geometry = mercator_transform φ g :=
  ⟨rfl, rfl, rfl, rfl⟩

/-- C10: when the geometry's area is strictly positive the emitted `scale`
is `log₂ √(map_area / area)`, and when the area is zero the `scale` is
exactly 10; the guard `area > 0` means the division and logarithm are never
evaluated on a zero-area geometry. -/
theorem C10_scale_guard (φ : PtR → PtR) (map_area : ℝ) (g : GeomR) :
    (0 < geom_area g →
      (save_feature φ map_area g).scale
        = Real.logb 2 (Real.sqrt (map_area / geom_area g))) ∧
    (geom_area g = 0 → (save_feature φ map_area g).scale = 10) := by
  have hscale : (save_feature φ map_area g).scale
      = if geom_area g > 0 then Real.logb 2 (Real.sqrt (map_area / geom_area g)) else 10 := rfl
  constructor
  · intro h
    rw [hscale, if_pos h]
  · intro h
    rw [hscale, if_neg (by rw [h]; exact lt_irrefl 0)]

/-- Witness for C10 at concrete inputs: a unit square has positive area and
gets the logarithmic scale; a two-point line has zero area and gets scale
10. -/
theorem C10_scale_guard_witness :
    (0 < geom_area (GeomR.polygon [((0:ℝ),(0:ℝ)), (1,0), (1,1), (0,1), (0,0)]) ∧
     (save_feature (fun p => p) 4
        (GeomR.polygon [((0:ℝ),(0:ℝ)), (1,0), (1,1), (0,1), (0,0)])).scale
       = Real.logb 2 (Real.sqrt
           (4 / geom_area (GeomR.polygon [((0:ℝ),(0:ℝ)), (1,0), (1,1), (0,1), (0,0)])))) ∧
    (geom_area (GeomR.lineString [((0:ℝ),(0:ℝ)), (1,0)]) = 0 ∧
     (save_feature (fun p => p) 4 (GeomR.lineString [((0:ℝ),(0:ℝ)), (1,0)])).scale = 10) := by
  have hpos : (0:ℝ) < geom_area (GeomR.polygon [((0:ℝ),(0:ℝ)), (1,0), (1,1), (0,1), (0,0)]) := by
    norm_num [geom_area, rot1]
  have hzero : geom_area (GeomR.lineString [((0:ℝ),(0:ℝ)), (1,0)]) = 0 := rfl
  exact ⟨⟨hpos, (C10_scale_guard (fun p => p) 4 _).1 hpos⟩,
         ⟨hzero, (C10_scale_guard (fun p => p) 4 _).2 hzero⟩⟩

/-! ## Claims C9 and C3: the endpoint-extension geometry -/

lemma seg_len_pos {p0 p1 : PtR} (h : p0 ≠ p1) : 0 < seg_len p0 p1 := by
  unfold seg_len
  apply Real.sqrt_pos.mpr
  by_cases h1 : p0.1 = p1.1
  · have h2 : p0.2 ≠ p1.2 := fun hc => h (Prod.ext h1 hc)
    have hdy : p1.2 - p0.2 ≠ 0 := sub_ne_zero.mpr (Ne.symm h2)
    exact add_pos_of_nonneg_of_pos (mul_self_nonneg _) (mul_self_pos.mpr hdy)
  · have hdx : p1.1 - p0.1 ≠ 0 := sub_ne_zero.mpr (Ne.symm h1)
    exact add_pos_of_pos_of_nonneg (mul_self_pos.mpr hdx) (mul_self_nonneg _)

lemma seg_len_comm (p0 p1 : PtR) : seg_len p0 p1 = seg_len p1 p0 := by
  unfold seg_len
  rw [show (p1.1 - p0.1) * (p1.1 - p0.1) + (p1.2 - p0.2) * (p1.2 - p0.2)
        = (p0.1 - p1.1) * (p0.1 - p1.1) + (p0.2 - p1.2) * (p0.2 - p1.2) by ring]

lemma sqrt_mul_self_scale (k a b : ℝ) (hk : 0 ≤ k) :
    Real.sqrt ((k*a) * (k*a) + (k*b) * (k*b)) = k * Real.sqrt (a*a + b*b) := by
  rw [show (k*a)*(k*a) + (k*b)*(k*b) = k^2 * (a*a + b*b) by ring,
      Real.sqrt_mul (sq_nonneg k), Real.sqrt_sq_eq_abs, abs_of_nonneg hk]

lemma extend_dist (p0 p1 : PtR) (δ : ℝ) (h : p0 ≠ p1) (hδ : 0 ≤ δ) :
    seg_len p1 (extend_ p0 p1 δ) = δ := by
  have hl : 0 < seg_len p0 p1 := seg_len_pos h
  have hlne : seg_len p0 p1 ≠ 0 := ne_of_gt hl
  have hδl : 0 ≤ δ / seg_len p0 p1 := div_nonneg hδ (le_of_lt hl)
  have e1 : (extend_ p0 p1 δ).1 - p1.1 = (δ / seg_len p0 p1) * (p1.1 - p0.1) := by
    simp only [extend_]
    field_simp
    ring
  have e2 : (extend_ p0 p1 δ).2 - p1.2 = (δ / seg_len p0 p1) * (p1.2 - p0.2) := by
    simp only [extend_]
    field_simp
    ring
  unfold seg_len
  rw [e1, e2, sqrt_mul_self_scale _ _ _ hδl]
  show (δ / seg_len p0 p1) * seg_len p0 p1 = δ
  exact div_mul_cancel₀ δ hlne

lemma extend_line_two_len (p0 p1 : PtR) (δ : ℝ) (h : p0 ≠ p1) (hδ : 0 ≤ δ) :
    seg_len (extend_ p1 p0 δ) (extend_ p0 p1 δ) = seg_len p0 p1 + 2 * δ := by
  have hl : 0 < seg_len p0 p1 := seg_len_pos h
  have hlne : seg_len p0 p1 ≠ 0 := ne_of_gt hl
  have hcoef : 0 ≤ (2 * δ + seg_len p0 p1) / seg_len p0 p1 :=
    div_nonneg (by linarith) (le_of_lt hl)
  have e1 : (extend_ p0 p1 δ).1 - (extend_ p1 p0 δ).1
      = ((2 * δ + seg_len p0 p1) / seg_len p0 p1) * (p1.1 - p0.1) := by
    simp only [extend_]
    rw [seg_len_comm p1 p0]
    field_simp
    ring
  have e2 : (extend_ p0 p1 δ).2 - (extend_ p1 p0 δ).2
      = ((2 * δ + seg_len p0 p1) / seg_len p0 p1) * (p1.2 - p0.2) := by
    simp only [extend_]
    rw [seg_len_comm p1 p0]
    field_simp
    ring
  unfold seg_len
  rw [e1, e2, sqrt_mul_self_scale _ _ _ hcoef]
  show ((2 * δ + seg_len p0 p1) / seg_len p0 p1) * seg_len p0 p1 = seg_len p0 p1 + 2 * δ
  rw [div_mul_cancel₀ _ hlne]
  ring

/-- C9: `extend_` divides by the Euclidean length of the end segment with
no guard.  The divisor `seg_len p0 p1` is positive — the extension is
well-defined — exactly when the two points are distinct, and is zero when
they coincide (in Python, `(delta + l)/l` then raises `ZeroDivisionError`
rather than returning the line unchanged or raising a descriptive error;
real division totalizes it here).  The last conjunct exhibits the divisor's
position in `extend_`. -/
theorem C9_unguarded_division :
    (∀ p0 p1 : PtR, p0 ≠ p1 → 0 < seg_len p0 p1) ∧
    (∀ p : PtR, seg_len p p = 0) ∧
    (∀ (p0 p1 : PtR) (δ : ℝ), extend_ p0 p1 δ
       = (p0.1 + ((δ + seg_len p0 p1) / seg_len p0 p1) * (p1.1 - p0.1),
          p0.2 + ((δ + seg_len p0 p1) / seg_len p0 p1) * (p1.2 - p0.2))) := by
  refine ⟨fun p0 p1 h => seg_len_pos h, fun p => ?_, fun p0 p1 δ => rfl⟩
  unfold seg_len
  simp

/-- Witness for C9: for the distinct points `(0,0)` and `(1,0)` the divisor
is positive; for the coincident point `(2,3)` it is zero. -/
theorem C9_unguarded_division_witness :
    (((0:ℝ), (0:ℝ)) : PtR) ≠ ((1:ℝ), (0:ℝ)) ∧
    0 < seg_len ((0:ℝ), (0:ℝ)) ((1:ℝ), (0:ℝ)) ∧
    seg_len ((2:ℝ), (3:ℝ)) ((2:ℝ), (3:ℝ)) = 0 := by
  have hne : (((0:ℝ), (0:ℝ)) : PtR) ≠ ((1:ℝ), (0:ℝ)) := by
    intro hc
    exact absurd (congrArg Prod.fst hc) (by norm_num)
  exact ⟨hne, C9_unguarded_division.1 _ _ hne, C9_unguarded_division.2.1 _⟩

/-- C3: when the accumulated boundary area `A` is positive, a divider line
(unannotated or boundary-flagged `LineString`) is added to the divider set
extended at both endpoints outward by exactly `τ = 0.02·√A`; for a
two-point line with distinct endpoints each new endpoint lies at distance
`τ` beyond the corresponding original endpoint, and the extended line's
length is the original length plus `2τ`. -/
theorem C3_divider_extension (A : ℝ) (p0 p1 : PtR) (props : Props PVal)
    (hA : 0 < A) (hne : p0 ≠ p1)
    (hdiv : (annotEmpty props || pgetb props "boundary") = true) :
    divider_line props (.lineString [p0, p1]) A
      = some (.lineString [extend_ p1 p0 (tolerance A), extend_ p0 p1 (tolerance A)]) ∧
    seg_len p0 (extend_ p1 p0 (tolerance A)) = tolerance A ∧
    seg_len p1 (extend_ p0 p1 (tolerance A)) = tolerance A ∧
    seg_len (extend_ p1 p0 (tolerance A)) (extend_ p0 p1 (tolerance A))
      = seg_len p0 p1 + 2 * tolerance A := by
  have hτ : 0 < tolerance A := by
    unfold tolerance
    have := Real.sqrt_pos.mpr hA
    norm_num [this]
  refine ⟨?_, ?_, ?_, ?_⟩
  · simp [divider_line, extend_line, hdiv]
  · exact extend_dist p1 p0 (tolerance A) (Ne.symm hne) (le_of_lt hτ)
  · exact extend_dist p0 p1 (tolerance A) hne (le_of_lt hτ)
  · exact extend_line_two_len p0 p1 (tolerance A) hne (le_of_lt hτ)

/-- Witness for C3: the two-point line from `(0,0)` to `(1,0)` inside a
divided area of 4, with empty (unannotated) properties. -/
theorem C3_divider_extension_witness :
    (0:ℝ) < 4 ∧ (((0:ℝ), (0:ℝ)) : PtR) ≠ ((1:ℝ), (0:ℝ)) ∧
    (annotEmpty ([] : Props PVal) || pgetb ([] : Props PVal) "boundary") = true ∧
    (divider_line ([] : Props PVal) (.lineString [((0:ℝ), (0:ℝ)), ((1:ℝ), (0:ℝ))]) 4
       = some (.lineString
           [extend_ ((1:ℝ), (0:ℝ)) ((0:ℝ), (0:ℝ)) (tolerance 4),
            extend_ ((0:ℝ), (0:ℝ)) ((1:ℝ), (0:ℝ)) (tolerance 4)]) ∧
     seg_len ((0:ℝ), (0:ℝ)) (extend_ ((1:ℝ), (0:ℝ)) ((0:ℝ), (0:ℝ)) (tolerance 4)) = tolerance 4 ∧
     seg_len ((1:ℝ), (0:ℝ)) (extend_ ((0:ℝ), (0:ℝ)) ((1:ℝ), (0:ℝ)) (tolerance 4)) = tolerance 4 ∧
     seg_len (extend_ ((1:ℝ), (0:ℝ)) ((0:ℝ), (0:ℝ)) (tolerance 4))
         (extend_ ((0:ℝ), (0:ℝ)) ((1:ℝ), (0:ℝ)) (tolerance 4))
       = seg_len ((0:ℝ), (0:ℝ)) ((1:ℝ), (0:ℝ)) + 2 * tolerance 4) := by
  have h4 : (0:ℝ) < 4 := by norm_num
  have hne : (((0:ℝ), (0:ℝ)) : PtR) ≠ ((1:ℝ), (0:ℝ)) := by
    intro hc
    exact absurd (congrArg Prod.fst hc) (by norm_num)
  have hdiv : (annotEmpty ([] : Props PVal) || pgetb ([] : Props PVal) "boundary") = true := by
    decide
  exact ⟨h4, hne, hdiv, C3_divider_extension 4 _ _ _ h4 hne hdiv⟩

/-- C7: during detail rescaling, a missing high-resolution layer aborts the
build with the `KeyError` naming the placeholder's `details` id, and a
present layer whose designated outline feature cannot be found aborts with
the `KeyError` naming the outline feature id; in either case the result is
the error alone — no detail features are produced for that placeholder. -/
theorem C7_detail_not_found {G : Type} (source_id layer_id : String)
    (layers : Props (HLayer G)) (remap : G → G → G → G)
    (feature : DFeature G) (rest : List (DFeature G)) :
    (pget layers (source_id ++ "-" ++ detailsOf feature) = none →
      add_detail_features source_id layer_id layers remap (feature :: rest)
        = .error (.layerNotFound (detailsOf feature)) ∧
      (DetailError.layerNotFound (detailsOf feature)).message
        = "Cannot find details' layer '" ++ detailsOf feature ++ "'") ∧
    (∀ hires_layer : HLayer G,
      pget layers (source_id ++ "-" ++ detailsOf feature) = some hires_layer →
      pget hires_layer.features_with_id hires_layer.outline_feature_id = none →
      add_detail_features source_id layer_id layers remap (feature :: rest)
        = .error (.outlineNotFound hires_layer.outline_feature_id) ∧
      (DetailError.outlineNotFound hires_layer.outline_feature_id).message
        = "Cannot find outline feature '" ++ hires_layer.outline_feature_id ++ "'") := by
  constructor
  · intro h1
    refine ⟨?_, rfl⟩
    simp only [add_detail_features, add_detail_feature, h1]
    rfl
  · intro hires_layer h1 h2
    refine ⟨?_, rfl⟩
    simp only [add_detail_features, add_detail_feature, h1, h2]
    rfl

/-- Witness for C7: with no layers at all, a placeholder referring to
details `hi` fails with the layer error; with a layer `src-hi` present but
an empty id-indexed feature table, it fails with the outline error. -/
theorem C7_detail_not_found_witness :
    (pget ([] : Props (HLayer Unit))
        ("src" ++ "-" ++ detailsOf (⟨1, (), [("details", .s "hi")]⟩ : DFeature Unit)) = none ∧
     add_detail_features "src" "L" ([] : Props (HLayer Unit)) (fun _ _ _ => ())
        [⟨1, (), [("details", .s "hi")]⟩]
       = .error (.layerNotFound "hi")) ∧
    (pget [("src-hi", (⟨[], "o1", []⟩ : HLayer Unit))]
        ("src" ++ "-" ++ detailsOf (⟨1, (), [("details", .s "hi")]⟩ : DFeature Unit))
       = some (⟨[], "o1", []⟩ : HLayer Unit) ∧
     add_detail_features "src" "L" [("src-hi", (⟨[], "o1", []⟩ : HLayer Unit))] (fun _ _ _ => ())
        [⟨1, (), [("details", .s "hi")]⟩]
       = .error (.outlineNotFound "o1")) := by
  have hd : detailsOf (⟨1, (), [("details", .s "hi")]⟩ : DFeature Unit) = "hi" := rfl
  have h1 : pget ([] : Props (HLayer Unit))
      ("src" ++ "-" ++ detailsOf (⟨1, (), [("details", .s "hi")]⟩ : DFeature Unit)) = none := rfl
  have h2 : pget [("src-hi", (⟨[], "o1", []⟩ : HLayer Unit))]
      ("src" ++ "-" ++ detailsOf (⟨1, (), [("details", .s "hi")]⟩ : DFeature Unit))
      = some (⟨[], "o1", []⟩ : HLayer Unit) := by
    rw [hd]
    decide
  have h3 : pget (HLayer.features_with_id (⟨[], "o1", []⟩ : HLayer Unit))
      (HLayer.outline_feature_id (⟨[], "o1", []⟩ : HLayer Unit)) = none := rfl
  constructor
  · refine ⟨h1, ?_⟩
    have := (C7_detail_not_found "src" "L" ([] : Props (HLayer Unit)) (fun _ _ _ => ())
        ⟨1, (), [("details", .s "hi")]⟩ []).1 h1
    rw [hd] at this
    exact this.1
  · refine ⟨h2, ?_⟩
    exact ((C7_detail_not_found "src" "L" [("src-hi", (⟨[], "o1", []⟩ : HLayer Unit))]
        (fun _ _ _ => ()) ⟨1, (), [("details", .s "hi")]⟩ []).2 ⟨[], "o1", []⟩ h2 h3).1

/-! ## Claim C5: the emitted property dictionary
(`add_geo_features_`, lines 200–230) -/

/-- The keys excluded when copying merged properties into the emitted
GeoJSON dictionary (`add_geo_features_` line 225). -/
def structuralKeys : List String := ["boundary", "children", "group", "layer", "region"]

/-- The base `geojson['properties']` dictionary built at lines 215–221:
the unique id and the derived bounds, area and length.  No `layer` entry is
ever placed in it. -/
def geojson_base {V : Type} (idv boundsv areav lengthv : V) : Props V :=
  [("id", idv), ("bounds", boundsv), ("area", areav), ("length", lengthv)]

/-- Lines 206–226: `properties = child_properties.copy()` updated with the
feature's own properties (later wins), then every entry whose key is not in
`structuralKeys` is copied into the emitted dictionary over the base
entries. -/
def emitted_properties {V : Type} (base child_properties feature_props : Props V) : Props V :=
  pupdate base
    ((pupdate child_properties feature_props).filter
      (fun kv => !(structuralKeys.contains kv.1)))

lemma pget_append {V : Type} (a b : Props V) (k : String) :
    pget (a ++ b) k = (pget a k).or (pget b k) := by
  unfold pget
  rw [List.find?_append]
  cases a.find? (fun kv => kv.1 == k) <;> rfl

lemma pget_filter_structural {V : Type} (props : Props V) (k : String)
    (h : structuralKeys.contains k = true) :
    pget (props.filter fun kv => !(structuralKeys.contains kv.1)) k = none := by
  induction props with
  | nil => rfl
  | cons kv rest ih =>
    rw [List.filter_cons]
    by_cases hkeep : (!(structuralKeys.contains kv.1)) = true
    · rw [if_pos hkeep]
      have hne : (kv.1 == k) = false := by
        rcases Bool.eq_false_or_eq_true (kv.1 == k) with ht | hf
        · exact absurd (eq_of_beq ht ▸ h) (by simpa using hkeep)
        · exact hf
      unfold pget
      rw [List.find?_cons, hne]
      exact ih
    · rw [if_neg hkeep]
      exact ih

lemma pget_filter_not_structural {V : Type} (props : Props V) (k : String)
    (h : structuralKeys.contains k = false) :
    pget (props.filter fun kv => !(structuralKeys.contains kv.1)) k = pget props k := by
  induction props with
  | nil => rfl
  | cons kv rest ih =>
    rw [List.filter_cons]
    by_cases hk : (kv.1 == k) = true
    · have : (!(structuralKeys.contains kv.1)) = true := by
        rw [eq_of_beq hk, h]
        rfl
      rw [if_pos this]
      unfold pget
      rw [List.find?_cons, hk, List.find?_cons, hk]
    · have hk' : (kv.1 == k) = false := by
        rcases Bool.eq_false_or_eq_true (kv.1 == k) with ht | hf
        · exact absurd ht hk
        · exact hf
      by_cases hkeep : (!(structuralKeys.contains kv.1)) = true
      · rw [if_pos hkeep]
        unfold pget
        rw [List.find?_cons, hk', List.find?_cons, hk']
        exact ih
      · rw [if_neg hkeep]
        unfold pget
        rw [List.find?_cons, hk']
        exact ih

/-- C5, counterexample to the claim as stated: the child-properties base
carries the owning layer id (`child_properties = {'layer': self.layer_id}`,
line 142), yet the emitted dictionary has no `layer` key at all — `layer`
is in the strip list and is never re-added to `geojson['properties']`
(the base only holds id/bounds/area/length). -/
theorem C5_counterexample :
    pget (emitted_properties (geojson_base 0 1 2 3) [("layer", (7:ℕ))] []) "layer" = none ∧
    pget [("layer", (7:ℕ))] "layer" = some 7 := by
  decide

/-- C5, amended: the emitted dictionary is the child-properties base merged
with the feature's own properties (later wins), with every structural key
(`boundary`, `children`, `group`, `layer`, `region`) stripped — lookups of
those keys see only the id/bounds/area/length base, which has no `layer`
entry, so `layer` is *not* re-added — and every non-structural key passed
through unchanged (feature value first, then child value, then base). -/
theorem C5_emitted_properties {V : Type} (base child_properties feature_props : Props V)
    (k : String) :
    (structuralKeys.contains k = true →
      pget (emitted_properties base child_properties feature_props) k = pget base k) ∧
    (structuralKeys.contains k = false →
      pget (emitted_properties base child_properties feature_props) k
        = ((pget feature_props k).or (pget child_properties k)).or (pget base k)) ∧
    (∀ idv boundsv areav lengthv : V,
      pget (geojson_base idv boundsv areav lengthv) "layer" = none) := by
  refine ⟨?_, ?_, ?_⟩
  · intro h
    unfold emitted_properties pupdate
    rw [pget_append, pget_filter_structural _ _ h]
    rfl
  · intro h
    unfold emitted_properties pupdate
    rw [pget_append, pget_filter_not_structural _ _ h, pget_append]
  · intro idv boundsv areav lengthv
    rfl

/-- Witness for C5 at concrete inputs: the structural key `group` is
stripped (lookup falls back to the base, which lacks it), and the
non-structural key `label` passes through from the feature's own
properties. -/
theorem C5_emitted_properties_witness :
    (structuralKeys.contains "group" = true ∧
     pget (emitted_properties (geojson_base 0 1 2 3) [("group", (9:ℕ))] [("label", 5)]) "group"
       = pget (geojson_base 0 1 2 3) "group") ∧
    (structuralKeys.contains "label" = false ∧
     pget (emitted_properties (geojson_base 0 1 2 3) [("group", (9:ℕ))] [("label", 5)]) "label"
       = ((pget [("label", (5:ℕ))] "label").or (pget [("group", (9:ℕ))] "label")).or
           (pget (geojson_base 0 1 2 3) "label")) := by
  constructor
  · exact ⟨by decide,
      (C5_emitted_properties (geojson_base 0 1 2 3) [("group", (9:ℕ))] [("label", 5)] "group").1
        (by decide)⟩
  · exact ⟨by decide,
      (C5_emitted_properties (geojson_base 0 1 2 3) [("group", (9:ℕ))] [("label", 5)] "label").2.1
        (by decide)⟩

/-! ## Claim C1: region assignment -/

lemma region_loop_aux {A P V : Type} (contains : A → P → Bool) (polygon : A) :
    ∀ (rs : List (RegionMarker P V)) (o : Option ℕ) (ps : Props V),
      rs.foldl
          (fun acc r =>
            if contains polygon r.point then (some r.id, pupdate acc.2 r.props) else acc)
          (o, ps)
        = ((match (rs.filter fun r => contains polygon r.point).getLast? with
            | none => o
            | some r => some r.id),
           (rs.filter fun r => contains polygon r.point).foldl
             (fun a r => pupdate a r.props) ps) := by
  intro rs
  induction rs with
  | nil => intro o ps; rfl
  | cons r rest ih =>
    intro o ps
    rw [List.foldl_cons, List.filter_cons]
    by_cases hc : contains polygon r.point
    · rw [if_pos hc, if_pos (by rw [hc])]
      rw [ih (some r.id) (pupdate ps r.props)]
      cases hrest : rest.filter fun r => contains polygon r.point with
      | nil => rfl
      | cons b t =>
        rw [List.getLast?_cons_cons]
        cases hbt : (b :: t).getLast? with
        | none => simp at hbt
        | some x => rfl
    · rw [if_neg hc,
          if_neg (by rw [show (contains polygon r.point) = false by simpa using hc]; simp)]
      exact ih o ps

/-- The loop of lines 190–194 computes exactly: the id of the last marker
whose point the polygon contains (none when no marker matches), and the
child properties updated successively with every matching marker's
properties. -/
lemma region_loop_spec {A P V : Type} (contains : A → P → Bool) (child_properties : Props V)
    (regions : List (RegionMarker P V)) (polygon : A) :
    region_loop contains child_properties regions polygon
      = ((match (regions.filter fun r => contains polygon r.point).getLast? with
          | none => none
          | some r => some r.id),
         (regions.filter fun r => contains polygon r.point).foldl
           (fun a r => pupdate a r.props) child_properties) :=
  region_loop_aux contains polygon regions none child_properties

lemma assign_regions_aux {A P V : Type} (contains : A → P → Bool)
    (child_properties : Props V) (regions : List (RegionMarker P V)) :
    ∀ (polygons : List A) (acc : List (ℕ × A × Props V)) (rid : ℕ),
      polygons.foldl
          (fun acc polygon =>
            let rp := region_loop contains child_properties regions polygon
            match rp.1 with
            | some i => (acc.1 ++ [(i, polygon, rp.2)], acc.2)
            | none => (acc.1 ++ [(acc.2, polygon, rp.2)], acc.2 + 1))
          (acc, rid)
        = (acc ++ (assign_regions_spec contains child_properties regions polygons rid).1,
           (assign_regions_spec contains child_properties regions polygons rid).2) := by
  intro polygons
  induction polygons with
  | nil => intro acc rid; simp [assign_regions_spec]
  | cons p rest ih =>
    intro acc rid
    rw [List.foldl_cons]
    show List.foldl _
        (match (region_loop contains child_properties regions p).1 with
         | some i => (acc ++ [(i, p, (region_loop contains child_properties regions p).2)], rid)
         | none => (acc ++ [(rid, p, (region_loop contains child_properties regions p).2)], rid + 1))
        rest = _
    rw [region_loop_spec]
    cases hlast : (regions.filter fun r => contains p r.point).getLast? with
    | none =>
      have hnil : (regions.filter fun r => contains p r.point) = [] := by
        cases hf : regions.filter fun r => contains p r.point with
        | nil => rfl
        | cons b t =>
          rw [hf] at hlast
          simp at hlast
      simp only [hnil, List.foldl_nil]
      rw [ih]
      simp [assign_regions_spec, hlast, List.append_assoc]
    | some r =>
      rw [ih]
      simp [assign_regions_spec, hlast, List.append_assoc]

/-- C1, counterexample to the claim as stated: with two markers both
contained in the one polygon — the first carrying property `a`, the last
carrying none — the emitted feature has the last marker's id `2` but
properties `{a: 1}`, whereas the claim ("the id and properties of the last
region marker … merged over the base child-properties") predicts the empty
merge `pupdate [] [] = []`. -/
theorem C1_counterexample :
    (assign_regions (fun (_ : Unit) (_ : Unit) => true) ([] : Props ℕ)
        [⟨1, (), [("a", 1)]⟩, ⟨2, (), []⟩] [()] 10000).1
      = [(2, (), [("a", 1)])] ∧
    pupdate ([] : Props ℕ) ([] : Props ℕ) = [] ∧
    [("a", (1:ℕ))] ≠ ([] : Props ℕ) := by
  refine ⟨?_, rfl, ?_⟩
  · decide
  · decide

/-- C1, amended: each polygon of the polygonized divider set takes the id
of the *last* marker (in iteration order) whose representative point it
contains, with the base child-properties merged successively with the
properties of *every* matching marker (later wins per key); when no marker
matches it takes the next sequential id from the layer's region-id
counter, which is seeded at 10000, with only the base child-properties. -/
theorem C1_region_assignment {A P V : Type} (contains : A → P → Bool)
    (child_properties : Props V) (regions : List (RegionMarker P V)) (polygons : List A) :
    assign_regions contains child_properties regions polygons initialRegionId
      = assign_regions_spec contains child_properties regions polygons initialRegionId ∧
    initialRegionId = 10000 := by
  refine ⟨?_, rfl⟩
  unfold assign_regions
  rw [assign_regions_aux]
  simp

/-! ## Claim C4: the closure invariant of `process_shape` -/

lemma bezier_samples_head (curve : ℚ → Pt) : (bezier_samples curve).head? = some (curve 0) := by
  unfold bezier_samples
  rw [List.head?_map, show (List.range 100).head? = some 0 by decide]
  norm_num

lemma bezier_samples_getLast (curve : ℚ → Pt) :
    (bezier_samples curve).getLast? = some (curve 1) := by
  unfold bezier_samples
  rw [show (100:ℕ) = 99 + 1 from rfl, List.range_succ, List.map_append]
  simp only [List.map_cons, List.map_nil]
  rw [List.getLast?_concat]
  norm_num

lemma cubic_point_zero (p0 p1 p2 p3 : Pt) : cubic_point p0 p1 p2 p3 0 = p0 := by
  norm_num [cubic_point]

lemma cubic_point_one (p0 p1 p2 p3 : Pt) : cubic_point p0 p1 p2 p3 1 = p3 := by
  norm_num [cubic_point]

lemma quad_point_zero (p0 p1 p2 : Pt) : quad_point p0 p1 p2 0 = p0 := by
  norm_num [quad_point]

lemma quad_point_one (p0 p1 p2 : Pt) : quad_point p0 p1 p2 1 = p2 := by
  norm_num [quad_point]

/-- The drawing commands that may occur strictly between the opening
`moveTo` and the final `close` of a single-subpath command sequence. -/
def midOk : PathCmd → Bool
  | .lnTo _ => true
  | .cubicBezTo _ _ _ => true
  | .quadBezTo _ _ => true
  | .arcTo _ _ _ _ => true
  | .moveTo _ => false
  | .close => false

/-- Well-behavedness of the external arc conversion: the emitted sample run
starts at the current point and ends at the arc's computed end point.
This holds of `cubic_beziers_from_arc` followed by endpoint-inclusive
sampling, which produces a Bezier chain from the current point to the arc
end point. -/
def ArcEmitGood (arcEmit : ArcEmit) : Prop :=
  ∀ wR hR stAng swAng cur,
    ((arcEmit wR hR stAng swAng cur).1).head? = some cur ∧
    ((arcEmit wR hR stAng swAng cur).1).getLast? = some (arcEmit wR hR stAng swAng cur).2

/-- Invariant of the command loop while one subpath opened by `moveTo p`
is being flattened: the subpath start is recorded, the shape is not yet
closed, and the collected coordinates either are still empty (with the
current point still at `p` and a pending move) or start at the transformed
`p` and end at the transformed current point. -/
def SubpathInv (T : TMat) (p : Pt) (st : FlattenState) : Prop :=
  st.first_point = some p ∧ st.closed = false ∧
  ∃ c, st.current_point = some c ∧
    ((st.coordinates = [] ∧ c = p ∧ st.moved = true) ∨
     (st.coordinates.head? = some (transform_point T p) ∧
      st.coordinates.getLast? = some (transform_point T c)))

lemma run_append (T : TMat) (p : Pt) (coords : List Pt) (cur : Pt) (L : List Pt) (newcur : Pt)
    (hrest : (coords = [] ∧ cur = p) ∨
      (coords.head? = some (transform_point T p) ∧
       coords.getLast? = some (transform_point T cur)))
    (hL : L ≠ [])
    (hLlast : L.getLast? = some (transform_point T newcur))
    (hLhead : coords = [] → L.head? = some (transform_point T p)) :
    (coords ++ L).head? = some (transform_point T p) ∧
    (coords ++ L).getLast? = some (transform_point T newcur) := by
  constructor
  · cases coords with
    | nil => simpa using hLhead rfl
    | cons a as =>
      rcases hrest with ⟨h, _⟩ | ⟨hh, _⟩
      · exact absurd h (by simp)
      · simpa using hh
  · rw [List.getLast?_append_of_ne_nil _ hL]
    exact hLlast

lemma subpath_emit (T : TMat) (p cur newcur : Pt) (coords L : List Pt) (moved : Bool)
    (hrest : (coords = [] ∧ cur = p ∧ moved = true) ∨
      (coords.head? = some (transform_point T p) ∧
       coords.getLast? = some (transform_point T cur)))
    (hL : L ≠ [])
    (hLhead : coords = [] → L.head? = some (transform_point T cur))
    (hLlast : L.getLast? = some (transform_point T newcur)) :
    (coords ++ L).head? = some (transform_point T p) ∧
    (coords ++ L).getLast? = some (transform_point T newcur) := by
  apply run_append T p coords cur L newcur
  · rcases hrest with ⟨h1, h2, _⟩ | h
    · exact Or.inl ⟨h1, h2⟩
    · exact Or.inr h
  · exact hL
  · exact hLlast
  · intro h
    rcases hrest with ⟨h1, h2, _⟩ | ⟨hh, _⟩
    · rw [hLhead h, h2]
    · rw [h] at hh
      simp at hh

lemma subpath_inv_step (arcEmit : ArcEmit) (T : TMat) (p : Pt)
    (hgood : ArcEmitGood arcEmit) (st : FlattenState) (c : PathCmd)
    (hc : midOk c = true) (hinv : SubpathInv T p st) :
    SubpathInv T p (flattenStep arcEmit T st c) := by
  obtain ⟨hfp, hcl, cur, hcur, hrest⟩ := hinv
  obtain ⟨coords, moved, fp, cp, cl⟩ := st
  have hfp' : fp = some p := hfp
  have hcl' : cl = false := hcl
  have hcur' : cp = some cur := hcur
  subst hfp' hcl' hcur'
  have hrest' : (coords = [] ∧ cur = p ∧ moved = true) ∨
      (coords.head? = some (transform_point T p) ∧
       coords.getLast? = some (transform_point T cur)) := hrest
  cases c with
  | moveTo pt => simp [midOk] at hc
  | close => simp [midOk] at hc
  | lnTo pt =>
    refine ⟨rfl, rfl, pt, rfl, Or.inr ?_⟩
    have hco : (if moved = true then coords ++ [transform_point T cur] else coords)
          ++ [transform_point T pt]
        = coords ++ ((if moved = true then [transform_point T cur] else [])
            ++ [transform_point T pt]) := by
      cases moved <;> simp
    show ((if moved = true then coords ++ [transform_point T cur] else coords)
          ++ [transform_point T pt]).head? = some (transform_point T p) ∧
        ((if moved = true then coords ++ [transform_point T cur] else coords)
          ++ [transform_point T pt]).getLast? = some (transform_point T pt)
    rw [hco]
    apply subpath_emit T p cur pt coords _ moved hrest'
    · cases moved <;> simp
    · intro h
      rcases hrest' with ⟨h1, h2, h3⟩ | ⟨hh, _⟩
      · rw [h3]
        simp
      · rw [h] at hh
        simp at hh
    · cases moved <;> simp
  | cubicBezTo p1 p2 p3 =>
    refine ⟨rfl, rfl, p3, rfl, Or.inr ?_⟩
    have hhead : ((bezier_samples (cubic_point cur p1 p2 p3)).map (transform_point T)).head?
        = some (transform_point T cur) := by
      rw [List.head?_map, bezier_samples_head, cubic_point_zero]
      rfl
    have hlast : ((bezier_samples (cubic_point cur p1 p2 p3)).map (transform_point T)).getLast?
        = some (transform_point T p3) := by
      rw [List.getLast?_map, bezier_samples_getLast, cubic_point_one]
      rfl
    apply subpath_emit T p cur p3 coords _ moved hrest'
    · intro h
      rw [h] at hhead
      simp at hhead
    · intro _
      exact hhead
    · exact hlast
  | quadBezTo p1 p2 =>
    refine ⟨rfl, rfl, p2, rfl, Or.inr ?_⟩
    have hhead : ((bezier_samples (quad_point cur p1 p2)).map (transform_point T)).head?
        = some (transform_point T cur) := by
      rw [List.head?_map, bezier_samples_head, quad_point_zero]
      rfl
    have hlast : ((bezier_samples (quad_point cur p1 p2)).map (transform_point T)).getLast?
        = some (transform_point T p2) := by
      rw [List.getLast?_map, bezier_samples_getLast, quad_point_one]
      rfl
    apply subpath_emit T p cur p2 coords _ moved hrest'
    · intro h
      rw [h] at hhead
      simp at hhead
    · intro _
      exact hhead
    · exact hlast
  | arcTo wR hR stAng swAng =>
    obtain ⟨hah, hal⟩ := hgood wR hR stAng swAng cur
    refine ⟨rfl, rfl, (arcEmit wR hR stAng swAng cur).2, rfl, Or.inr ?_⟩
    have hhead : ((arcEmit wR hR stAng swAng cur).1.map (transform_point T)).head?
        = some (transform_point T cur) := by
      rw [List.head?_map, hah]
      rfl
    have hlast : ((arcEmit wR hR stAng swAng cur).1.map (transform_point T)).getLast?
        = some (transform_point T (arcEmit wR hR stAng swAng cur).2) := by
      rw [List.getLast?_map, hal]
      rfl
    apply subpath_emit T p cur (arcEmit wR hR stAng swAng cur).2 coords _ moved hrest'
    · intro h
      rw [h] at hhead
      simp at hhead
    · intro _
      exact hhead
    · exact hlast

lemma subpath_inv_foldl (arcEmit : ArcEmit) (T : TMat) (p : Pt) (hgood : ArcEmitGood arcEmit) :
    ∀ (mids : List PathCmd) (st : FlattenState), (∀ c ∈ mids, midOk c = true) →
      SubpathInv T p st → SubpathInv T p (mids.foldl (flattenStep arcEmit T) st)
  | [], _, _, hinv => hinv
  | c :: rest, st, hmids, hinv => by
    rw [List.foldl_cons]
    exact subpath_inv_foldl arcEmit T p hgood rest _
      (fun d hd => hmids d (List.mem_cons_of_mem c hd))
      (subpath_inv_step arcEmit T p hgood st c (hmids c (List.mem_cons_self c rest)) hinv)

/-- An arc conversion emitting just the current point; it satisfies
`ArcEmitGood` and serves as the concrete instance for closed scenarios. -/
def arcEmitOne : ArcEmit := fun _ _ _ _ cur => ([cur], cur)

/-- C4, counterexample to the claim as stated: the sequence
`moveTo (0,0), lnTo (1,0), close, moveTo (2,2), lnTo (3,2), close` begins
with a MoveTo and ends with a Close, yet the returned Polygon's coordinate
list starts at `(0,0)` and ends at `(2,2)` — after the first `close`,
subpath tracking is reset and the second subpath's coordinates are appended
to the same list, so the ring's first and last coordinates differ. -/
theorem C4_counterexample :
    process_shape arcEmitOne idT
        [.moveTo (0,0), .lnTo (1,0), .close, .moveTo (2,2), .lnTo (3,2), .close]
      = .polygon [(0,0), (1,0), (0,0), (2,2), (3,2), (2,2)] ∧
    ([(0,0), (1,0), (0,0), (2,2), (3,2), (2,2)] : List Pt).head?
      ≠ ([(0,0), (1,0), (0,0), (2,2), (3,2), (2,2)] : List Pt).getLast? := by
  constructor
  · simp [process_shape, flattenStep, initState, transform_point, idT]
  · decide

/-- C4, amended: for a *single-subpath* sequence — one leading `moveTo`,
then drawing commands only, then one final `close` — and an arc conversion
whose sample runs start at the current point and end at the arc end point,
the flattener returns a Polygon whose coordinate list's first and last
elements coincide (the transformed subpath start is appended at `close`
whenever the current point differs from the subpath's first point). -/
theorem C4_subpath_closure (arcEmit : ArcEmit) (T : TMat) (p : Pt) (mids : List PathCmd)
    (hgood : ArcEmitGood arcEmit) (hmids : ∀ c ∈ mids, midOk c = true) :
    ∃ ring, process_shape arcEmit T (.moveTo p :: (mids ++ [.close])) = .polygon ring ∧
      ring.head? = ring.getLast? := by
  have hinv := subpath_inv_foldl arcEmit T p hgood mids
      (flattenStep arcEmit T initState (.moveTo p))
      hmids ⟨rfl, rfl, p, rfl, Or.inl ⟨rfl, rfl, rfl⟩⟩
  obtain ⟨hfp, hcl, cur, hcur, hrest⟩ := hinv
  have hfold : (PathCmd.moveTo p :: (mids ++ [PathCmd.close])).foldl
        (flattenStep arcEmit T) initState
      = flattenStep arcEmit T
          (mids.foldl (flattenStep arcEmit T) (flattenStep arcEmit T initState (.moveTo p)))
          .close := by
    rw [List.foldl_cons, List.foldl_append, List.foldl_cons, List.foldl_nil]
  set s1 := mids.foldl (flattenStep arcEmit T) (flattenStep arcEmit T initState (.moveTo p))
    with hs1
  have hclose : flattenStep arcEmit T s1 .close
      = { s1 with
            coordinates :=
              if cur ≠ p then s1.coordinates ++ [transform_point T p] else s1.coordinates,
            closed := true, first_point := none } := by
    simp only [flattenStep, hfp, hcur]
  refine ⟨if cur ≠ p then s1.coordinates ++ [transform_point T p] else s1.coordinates, ?_, ?_⟩
  · unfold process_shape
    rw [hfold, hclose]
    rfl
  · rcases hrest with ⟨hnil, hcp, _⟩ | ⟨hh, hl⟩
    · rw [if_neg (by simp [hcp]), hnil]
      rfl
    · by_cases hcp : cur = p
      · rw [if_neg (by simp [hcp]), hh, hl, hcp]
      · rw [if_pos hcp]
        rw [List.getLast?_concat]
        cases hco : s1.coordinates with
        | nil =>
          rw [hco] at hh
          simp at hh
        | cons a as =>
          rw [hco] at hh
          simp only [List.cons_append, List.head?_cons] at hh ⊢
          rw [hh]

/-- Witness for C4: the triangle-free square path
`moveTo (0,0), lnTo (1,0), close` under the identity transform with the
well-behaved one-point arc conversion. -/
theorem C4_subpath_closure_witness :
    ArcEmitGood arcEmitOne ∧
    (∀ c ∈ [PathCmd.lnTo ((1:ℚ), (0:ℚ))], midOk c = true) ∧
    ∃ ring, process_shape arcEmitOne idT
        (.moveTo (0,0) :: ([PathCmd.lnTo ((1:ℚ), (0:ℚ))] ++ [.close])) = .polygon ring ∧
      ring.head? = ring.getLast? :=
  ⟨fun _ _ _ _ _ => ⟨rfl, rfl⟩, by decide,
   C4_subpath_closure arcEmitOne idT (0,0) [PathCmd.lnTo ((1:ℚ), (0:ℚ))]
     (fun _ _ _ _ _ => ⟨rfl, rfl⟩) (by decide)⟩
